import Mathlib

/-!
Shallow embedding of `jules-scratch/verification/verify_sloppiness.py`.

The script is a single linear Playwright session:

  def run(playwright):
      browser = playwright.chromium.launch(headless=True)
      context = browser.new_context()
      page = context.new_page()
      try:
          page.goto("http://localhost:3000/", timeout=60000)
          page.wait_for_load_state("networkidle")
          time.sleep(120)
          page.click(button[aria-label="Rectangle"])      # selector quoted in the source
          page.click(button[aria-label="Stroke style"])   # selector quoted in the source
          page.click(button[aria-label="Rough"])          # selector quoted in the source
          page.mouse.move(300, 300)
          page.mouse.down()
          page.mouse.move(500, 500)
          page.mouse.up()
          page.screenshot(path="jules-scratch/verification/verification.png")
      finally:
          browser.close()

Every Playwright / library call is an external, fallible operation.  We model
each call as a value of `PWCall` and an execution environment as an oracle
`Env : PWCall → Bool` telling whether that call succeeds or raises.  `run env`
replays the script under Python semantics:

* the three acquisition calls (`launch`, `new_context`, `new_page`) happen
  before the `try:`; if one raises, the exception propagates and the
  `finally:` block is never entered;
* the `try:` body runs sequentially, stopping at the first raising call;
* `browser.close()` runs in the `finally:` block whenever the `try:` was
  entered; if `close` itself raises, its exception replaces the body's
  (Python `finally` semantics); otherwise the body's exception, if any,
  propagates.

`page.screenshot` is embedded with both the explicit `path` argument and the
`full_page` option, which the source does not pass; Playwright documents the
default of `full_page` as `false` (viewport capture), so the embedded call
carries `false`.
-/

namespace VerifySloppiness

/-- The external (Playwright / time) calls the script can issue, each with the
argument values the source passes. -/
inductive PWCall where
  | launch : PWCall
  | newContext : PWCall
  | newPage : PWCall
  | goto : String → Nat → PWCall
  | waitForLoadState : String → PWCall
  | sleep : Nat → PWCall
  | click : String → PWCall
  | mouseMove : Int → Int → PWCall
  | mouseDown : PWCall
  | mouseUp : PWCall
  | screenshot : String → Bool → PWCall
  | close : PWCall
deriving DecidableEq

/-- Hard-coded target URL (source line 10). -/
def targetURL : String := "http://localhost:3000/"

/-- Hard-coded navigation timeout in milliseconds (source line 10). -/
def navTimeoutMs : Nat := 60000

/-- Hard-coded duration of the unconditional pause, in seconds (source line 12). -/
def pauseSeconds : Nat := 120

/-- Hard-coded screenshot output path (source line 28). -/
def screenshotPath : String := "jules-scratch/verification/verification.png"

/-- CSS selector of the Rectangle-tool click (source line 15). -/
def rectangleSelector : String := "button[aria-label=\"Rectangle\"]"

/-- CSS selector of the Stroke-style click (source line 18). -/
def strokeStyleSelector : String := "button[aria-label=\"Stroke style\"]"

/-- CSS selector of the Rough click (source line 19). -/
def roughSelector : String := "button[aria-label=\"Rough\"]"

/-- The navigation call `page.goto(...)`. -/
def gotoCall : PWCall := PWCall.goto targetURL navTimeoutMs

/-- The readiness wait `page.wait_for_load_state("networkidle")`. -/
def waitCall : PWCall := PWCall.waitForLoadState "networkidle"

/-- The fixed pause `time.sleep(120)`. -/
def sleepCall : PWCall := PWCall.sleep pauseSeconds

/-- The Rectangle-tool click. -/
def rectClick : PWCall := PWCall.click rectangleSelector

/-- The Stroke-style click. -/
def strokeClick : PWCall := PWCall.click strokeStyleSelector

/-- The Rough click. -/
def roughClick : PWCall := PWCall.click roughSelector

/-- The screenshot call; the source passes only `path`, and Playwright's
`full_page` option defaults to `false`, so the embedded call records a
viewport (non-full-page) capture. -/
def shotCall : PWCall := PWCall.screenshot screenshotPath false

/-- The four raw pointer events of the drag gesture (source lines 22-25), in
program order. -/
def pointerCalls : List PWCall :=
  [PWCall.mouseMove 300 300, PWCall.mouseDown, PWCall.mouseMove 500 500, PWCall.mouseUp]

/-- The calls of the `try:` body, in program order (source lines 10-28). -/
def tryCalls : List PWCall :=
  [gotoCall, waitCall, sleepCall, rectClick, strokeClick, roughClick,
   PWCall.mouseMove 300 300, PWCall.mouseDown, PWCall.mouseMove 500 500, PWCall.mouseUp,
   shotCall]

/-- The calls of the `try:` body that precede the screenshot call. -/
def tryCallsBeforeShot : List PWCall := tryCalls.dropLast

/-- The session-acquisition calls issued before the `try:` block
(source lines 5-7). -/
def setupCalls : List PWCall := [PWCall.launch, PWCall.newContext, PWCall.newPage]

/-- The complete fixed script: acquisition, body, and the `finally:` close. -/
def fullScript : List PWCall := setupCalls ++ tryCalls ++ [PWCall.close]

/-- An execution environment: for each external call, whether it succeeds
(`true`) or raises (`false`). -/
abbrev Env := PWCall → Bool

/-- Sequential execution of a list of calls: each call is issued in order and
paired with its outcome; the first raising call ends the sequence. -/
def execSeq (env : Env) : List PWCall → List (PWCall × Bool)
  | [] => []
  | c :: cs => if env c then (c, true) :: execSeq env cs else [(c, false)]

/-- The first raising call of an executed sequence, if any. -/
def firstFailure (l : List (PWCall × Bool)) : Option PWCall :=
  ((l.filter fun p => !p.2).head?).map Prod.fst

/-- Observable outcome of one execution of `run`: the calls issued in order,
each with its outcome, and the exception (identified by the raising call)
propagating out of `run`, if any. -/
structure RunResult where
  trace : List (PWCall × Bool)
  err : Option PWCall
deriving DecidableEq

/-- The embedded `run`: replays the script under the environment, with the
acquisition calls outside the `try:` and `close` in the `finally:`. -/
def run (env : Env) : RunResult :=
  if env PWCall.launch then
    if env PWCall.newContext then
      if env PWCall.newPage then
        let body := execSeq env tryCalls
        let closeOk := env PWCall.close
        { trace := (PWCall.launch, true) :: (PWCall.newContext, true) ::
            (PWCall.newPage, true) :: (body ++ [(PWCall.close, closeOk)]),
          err := if closeOk then firstFailure body else some PWCall.close }
      else
        { trace := [(PWCall.launch, true), (PWCall.newContext, true), (PWCall.newPage, false)],
          err := some PWCall.newPage }
    else
      { trace := [(PWCall.launch, true), (PWCall.newContext, false)],
        err := some PWCall.newContext }
  else
    { trace := [(PWCall.launch, false)], err := some PWCall.launch }

/-- The calls an execution issued, in order. -/
def issuedCalls (r : RunResult) : List PWCall := r.trace.map Prod.fst

/-- The call `c` was issued during the execution. -/
def issued (r : RunResult) (c : PWCall) : Prop := c ∈ issuedCalls r

/-- The call `c` was issued and completed successfully. -/
def completed (r : RunResult) (c : PWCall) : Prop := (c, true) ∈ r.trace

/-- How many times `browser.close()` was invoked during the execution. -/
def closeCount (r : RunResult) : Nat :=
  r.trace.countP fun p => decide (p.1 = PWCall.close)

/-- The execution of `run` ended in an exception. -/
def raised (r : RunResult) : Prop := r.err ≠ none

instance (r : RunResult) (c : PWCall) : Decidable (issued r c) :=
  inferInstanceAs (Decidable (c ∈ issuedCalls r))

instance (r : RunResult) (c : PWCall) : Decidable (completed r c) :=
  inferInstanceAs (Decidable ((c, true) ∈ r.trace))

instance (r : RunResult) : Decidable (raised r) :=
  inferInstanceAs (Decidable (r.err ≠ none))

/-- Effect of one execution of `run` on the file at `screenshotPath`:
`capture` is the image the screenshot call would produce, `pre` the file
content before the run (`none` when absent).  `page.screenshot(path=...)`
writes `capture` there, overwriting; a run that never completes the
screenshot call leaves the file untouched. -/
def fileAfterRun (env : Env) (capture : String) (pre : Option String) : Option String :=
  if completed (run env) shotCall then some capture else pre

/-- Environment in which every external call succeeds. -/
def envAll : Env := fun _ => true

/-- Environment in which `page = context.new_page()` raises and every other
call would succeed. -/
def envNoPage : Env := fun c => decide (c ≠ PWCall.newPage)

/-- Environment in which navigation raises and every other call would
succeed. -/
def envNoGoto : Env := fun c => decide (c ≠ gotoCall)

/-- Environment that succeeds exactly on the calls of the fixed script. -/
def envScriptOnly : Env := fun c => decide (c ∈ fullScript)

/-- Environment in which the Rectangle-tool click raises (the "Rectangle"
control is absent) and every other call would succeed. -/
def envNoRect : Env := fun c => decide (c ≠ rectClick)

/-- Environment in which `page.mouse.down()` raises and every other call
would succeed. -/
def envNoDown : Env := fun c => decide (c ≠ PWCall.mouseDown)

/-- The UI actions of the script: the three clicks and the four pointer
events, in program order. -/
def uiCalls : List PWCall := [rectClick, strokeClick, roughClick] ++ pointerCalls

/-- Whether a call is a raw pointer event (`page.mouse.*`). -/
def isPointer : PWCall → Bool
  | PWCall.mouseMove _ _ => true
  | PWCall.mouseDown => true
  | PWCall.mouseUp => true
  | _ => false

/-- The calls a sequential execution issues are a sublist (order-preserving
selection) of the planned call list. -/
theorem execSeq_fst_sublist (env : Env) :
    ∀ l : List PWCall, ((execSeq env l).map Prod.fst).Sublist l := by
  intro l
  induction l with
  | nil => simp [execSeq]
  | cons c cs ih =>
    by_cases h : env c = true
    · simpa [execSeq, h] using ih
    · simp only [Bool.not_eq_true] at h
      simp [execSeq, h]

/-- The head of the planned list is always issued. -/
theorem head_mem_execSeq (env : Env) (c : PWCall) (cs : List PWCall) :
    c ∈ (execSeq env (c :: cs)).map Prod.fst := by
  by_cases h : env c = true
  · simp [execSeq, h]
  · simp only [Bool.not_eq_true] at h
    simp [execSeq, h]

/-- A call that completed during sequential execution succeeded in the
environment. -/
theorem mem_true_execSeq (env : Env) :
    ∀ l : List PWCall, ∀ y : PWCall, (y, true) ∈ execSeq env l → env y = true := by
  intro l
  induction l with
  | nil => intro y hy; simp [execSeq] at hy
  | cons c cs ih =>
    intro y hy
    by_cases h : env c = true
    · simp only [execSeq, h, if_true, List.mem_cons] at hy
      rcases hy with hy | hy
      · cases hy; exact h
      · exact ih y hy
    · simp only [Bool.not_eq_true] at h
      simp [execSeq, h] at hy

/-- If some call past the planned segment `l1` was issued, every call of `l1`
was issued and completed first. -/
theorem execSeq_completed_of_reach (env : Env) :
    ∀ (l1 l2 : List PWCall) (y : PWCall),
      y ∈ (execSeq env (l1 ++ l2)).map Prod.fst → y ∉ l1 →
      ∀ c ∈ l1, (c, true) ∈ execSeq env (l1 ++ l2) := by
  intro l1
  induction l1 with
  | nil => intro l2 y _ _ c hc; cases hc
  | cons a l1 ih =>
    intro l2 y hy hn c hc
    by_cases ha : env a = true
    · have hstep : execSeq env ((a :: l1) ++ l2) = (a, true) :: execSeq env (l1 ++ l2) := by
        simp [execSeq, ha]
      rw [hstep] at hy ⊢
      have hyne : y ≠ a := fun h => hn (h ▸ List.mem_cons_self a l1)
      rw [List.map_cons] at hy
      have hy' : y ∈ (execSeq env (l1 ++ l2)).map Prod.fst := by
        rcases List.mem_cons.1 hy with h | h
        · exact absurd h hyne
        · exact h
      have hn' : y ∉ l1 := fun h => hn (List.mem_cons_of_mem a h)
      rcases List.mem_cons.1 hc with h | h
      · exact h ▸ List.mem_cons_self _ _
      · exact List.mem_cons_of_mem _ (ih l2 y hy' hn' c h)
    · simp only [Bool.not_eq_true] at ha
      have hstep : execSeq env ((a :: l1) ++ l2) = [(a, false)] := by
        simp [execSeq, ha]
      rw [hstep] at hy
      simp at hy
      subst hy
      exact absurd (List.mem_cons_self y l1) hn

/-- Sequential execution of a fully succeeding plan completes every call. -/
theorem execSeq_all_true (env : Env) :
    ∀ l : List PWCall, (∀ c ∈ l, env c = true) →
      execSeq env l = l.map fun c => (c, true) := by
  intro l
  induction l with
  | nil => intro _; simp [execSeq]
  | cons c cs ih =>
    intro h
    have hc : env c = true := h c (List.mem_cons_self c cs)
    simp [execSeq, hc, ih fun d hd => h d (List.mem_cons_of_mem c hd)]

/-- Sequential execution past a fully succeeding segment. -/
theorem execSeq_append_true (env : Env) :
    ∀ l1 l2 : List PWCall, (∀ c ∈ l1, env c = true) →
      execSeq env (l1 ++ l2) = (l1.map fun c => (c, true)) ++ execSeq env l2 := by
  intro l1
  induction l1 with
  | nil => intro l2 _; simp
  | cons c cs ih =>
    intro l2 h
    have hc : env c = true := h c (List.mem_cons_self c cs)
    simp [execSeq, hc, ih l2 fun d hd => h d (List.mem_cons_of_mem c hd)]

/-- Sequential execution depends only on the environment's verdicts on the
planned calls. -/
theorem execSeq_congr (e1 e2 : Env) :
    ∀ l : List PWCall, (∀ c ∈ l, e1 c = e2 c) → execSeq e1 l = execSeq e2 l := by
  intro l
  induction l with
  | nil => intro _; simp [execSeq]
  | cons c cs ih =>
    intro h
    have hc : e1 c = e2 c := h c (List.mem_cons_self c cs)
    rw [execSeq, execSeq, ← hc, ih fun d hd => h d (List.mem_cons_of_mem c hd)]

/-- No call of the `try:` body is the `close` call. -/
theorem close_not_mem_execSeq (env : Env) :
    ∀ p ∈ execSeq env tryCalls, p.1 ≠ PWCall.close := by
  intro p hp hc
  have h1 : p.1 ∈ (execSeq env tryCalls).map Prod.fst := List.mem_map_of_mem Prod.fst hp
  have h2 : p.1 ∈ tryCalls := (execSeq_fst_sublist env tryCalls).subset h1
  rw [hc] at h2
  exact absurd h2 (by decide)

/-- Under a successful acquisition, a non-acquisition, non-close call is
issued by `run` exactly when the `try:` body issues it. -/
theorem issued_run_body (env : Env) (h1 : env PWCall.launch = true)
    (h2 : env PWCall.newContext = true) (h3 : env PWCall.newPage = true)
    (y : PWCall) (hy : y ∉ setupCalls) (hyc : y ≠ PWCall.close) :
    issued (run env) y ↔ y ∈ (execSeq env tryCalls).map Prod.fst := by
  simp only [setupCalls, List.mem_cons, List.not_mem_nil, or_false, not_or] at hy
  simp [issued, issuedCalls, run, h1, h2, h3, hy.1, hy.2.1, hy.2.2, hyc]

/-- Under a successful acquisition, a non-acquisition, non-close call is
completed by `run` exactly when the `try:` body completes it. -/
theorem completed_run_body (env : Env) (h1 : env PWCall.launch = true)
    (h2 : env PWCall.newContext = true) (h3 : env PWCall.newPage = true)
    (y : PWCall) (hy : y ∉ setupCalls) (hyc : y ≠ PWCall.close) :
    completed (run env) y ↔ (y, true) ∈ execSeq env tryCalls := by
  simp only [setupCalls, List.mem_cons, List.not_mem_nil, or_false, not_or] at hy
  simp [completed, run, h1, h2, h3, hy.1, hy.2.1, hy.2.2, hyc]

/-- The calls any execution of `run` issues are a sublist of the fixed
script. -/
theorem run_trace_sublist (env : Env) :
    (issuedCalls (run env)).Sublist fullScript := by
  by_cases hl : env PWCall.launch = true
  · by_cases hc2 : env PWCall.newContext = true
    · by_cases hp : env PWCall.newPage = true
      · have hb := execSeq_fst_sublist env tryCalls
        have h := List.Sublist.append (List.Sublist.refl setupCalls)
          (List.Sublist.append hb (List.Sublist.refl [PWCall.close]))
        simpa [run, hl, hc2, hp, issuedCalls, fullScript, setupCalls,
          List.append_assoc] using h
      · simp only [Bool.not_eq_true] at hp
        have : issuedCalls (run env) = [PWCall.launch, PWCall.newContext, PWCall.newPage] := by
          simp [run, hl, hc2, hp, issuedCalls]
        rw [this]
        decide
    · simp only [Bool.not_eq_true] at hc2
      have : issuedCalls (run env) = [PWCall.launch, PWCall.newContext] := by
        simp [run, hl, hc2, issuedCalls]
      rw [this]
      decide
  · simp only [Bool.not_eq_true] at hl
    have : issuedCalls (run env) = [PWCall.launch] := by
      simp [run, hl, issuedCalls]
    rw [this]
    decide

/-- C1 counterexample: when `context.new_page()` raises (a failure path of
`run`), `browser.close()` is invoked zero times, not once: the acquisition
calls sit before the `try:`, so the `finally:` block is never entered. -/
theorem close_skipped_on_newPage_failure :
    raised (run envNoPage) ∧ closeCount (run envNoPage) = 0 := by decide

/-- C1 (amended): once the acquisition calls (`launch`, `new_context`,
`new_page`) have succeeded, `browser.close()` is invoked exactly once, as the
last call of the execution, whether the `try:`-body steps succeed or raise. -/
theorem close_once_after_acquisition (env : Env) (h1 : env PWCall.launch = true)
    (h2 : env PWCall.newContext = true) (h3 : env PWCall.newPage = true) :
    closeCount (run env) = 1 ∧ (issuedCalls (run env)).getLast? = some PWCall.close := by
  constructor
  · have hbody : (execSeq env tryCalls).countP (fun p => decide (p.1 = PWCall.close)) = 0 := by
      apply List.countP_eq_zero.2
      intro p hp
      simpa using close_not_mem_execSeq env p hp
    simp [closeCount, run, h1, h2, h3, List.countP_cons, List.countP_append, hbody]
  · have htr : issuedCalls (run env) =
        (PWCall.launch :: PWCall.newContext :: PWCall.newPage ::
          (execSeq env tryCalls).map Prod.fst) ++ [PWCall.close] := by
      simp [issuedCalls, run, h1, h2, h3]
    rw [htr, List.getLast?_concat]

/-- C1 witness: in the all-success environment the amended statement holds
concretely. -/
theorem close_once_after_acquisition_witness :
    closeCount (run envAll) = 1 ∧ (issuedCalls (run envAll)).getLast? = some PWCall.close :=
  close_once_after_acquisition envAll rfl rfl rfl

/-- C2: the navigation call carries the hard-coded 60000 ms timeout, and when
the target does not respond (navigation raises) under a successful
acquisition, `run` re-raises the navigation error — the failing call is the
`goto` — instead of continuing. -/
theorem navigation_timeout_bounded (env : Env) (h1 : env PWCall.launch = true)
    (h2 : env PWCall.newContext = true) (h3 : env PWCall.newPage = true)
    (hnav : env gotoCall = false) (hclose : env PWCall.close = true) :
    navTimeoutMs = 60000 ∧ gotoCall = PWCall.goto targetURL navTimeoutMs ∧
      raised (run env) ∧ (run env).err = some gotoCall := by
  have hbody : execSeq env tryCalls = [(gotoCall, false)] := by
    simp [tryCalls, execSeq, hnav]
  refine ⟨rfl, rfl, ?_, ?_⟩ <;>
    simp [raised, run, h1, h2, h3, hbody, hclose, firstFailure]

/-- C2 witness: with navigation failing and all other calls succeeding, the
statement holds concretely. -/
theorem navigation_timeout_bounded_witness :
    navTimeoutMs = 60000 ∧ gotoCall = PWCall.goto targetURL navTimeoutMs ∧
      raised (run envNoGoto) ∧ (run envNoGoto).err = some gotoCall :=
  navigation_timeout_bounded envNoGoto (by decide) (by decide) (by decide)
    (by decide) (by decide)

/-- C5: when navigation raises under a successful acquisition, `run` raises a
navigation error (the failing call is the `goto`), the screenshot call is
never issued, and the file at the screenshot path is left exactly as it was
before the run. -/
theorem unreachable_url_no_screenshot (env : Env) (capture : String)
    (pre : Option String) (h1 : env PWCall.launch = true)
    (h2 : env PWCall.newContext = true) (h3 : env PWCall.newPage = true)
    (hnav : env gotoCall = false) (hclose : env PWCall.close = true) :
    raised (run env) ∧ (run env).err = some gotoCall ∧
      ¬ issued (run env) shotCall ∧ fileAfterRun env capture pre = pre := by
  have hbody : execSeq env tryCalls = [(gotoCall, false)] := by
    simp [tryCalls, execSeq, hnav]
  have hrun : run env = RunResult.mk
      [(PWCall.launch, true), (PWCall.newContext, true), (PWCall.newPage, true),
       (gotoCall, false), (PWCall.close, true)] (some gotoCall) := by
    simp [run, h1, h2, h3, hbody, hclose, firstFailure]
  have hnotc : ¬ completed (run env) shotCall := by
    rw [hrun]
    decide
  refine ⟨?_, ?_, ?_, ?_⟩
  · rw [hrun]; decide
  · rw [hrun]
  · rw [hrun]; decide
  · simp [fileAfterRun, hnotc]

/-- C5 witness: with navigation failing and all other calls succeeding, a
pre-existing file survives untouched. -/
theorem unreachable_url_no_screenshot_witness :
    raised (run envNoGoto) ∧ (run envNoGoto).err = some gotoCall ∧
      ¬ issued (run envNoGoto) shotCall ∧
      fileAfterRun envNoGoto "img" (some "old") = some "old" :=
  unreachable_url_no_screenshot envNoGoto "img" (some "old") (by decide)
    (by decide) (by decide) (by decide) (by decide)

/-- C4: if the Rectangle click raises (the "Rectangle" control is absent),
then no pointer move/down/up event is ever issued in that run; and when every
step before the click succeeded (so the click is the step that fails), `run`
re-raises with the Rectangle click as the failing step. -/
theorem rectangle_missing_stops_run (env : Env) (hrect : env rectClick = false) :
    (∀ c ∈ pointerCalls, ¬ issued (run env) c) ∧
    (env PWCall.launch = true → env PWCall.newContext = true →
      env PWCall.newPage = true → env gotoCall = true → env waitCall = true →
      env sleepCall = true → env PWCall.close = true →
      (run env).err = some rectClick) := by
  constructor
  · intro c hc hiss
    have hcprop : c ∉ setupCalls ∧ c ≠ PWCall.close ∧
        c ∉ [gotoCall, waitCall, sleepCall, rectClick] := by
      simp only [pointerCalls, List.mem_cons, List.not_mem_nil, or_false] at hc
      rcases hc with rfl | rfl | rfl | rfl <;> exact ⟨by decide, by decide, by decide⟩
    by_cases hl : env PWCall.launch = true
    · by_cases hc2 : env PWCall.newContext = true
      · by_cases hp : env PWCall.newPage = true
        · have hmem : c ∈ (execSeq env tryCalls).map Prod.fst :=
            (issued_run_body env hl hc2 hp c hcprop.1 hcprop.2.1).1 hiss
          have hsplit : tryCalls = [gotoCall, waitCall, sleepCall, rectClick] ++
              [strokeClick, roughClick, PWCall.mouseMove 300 300, PWCall.mouseDown,
               PWCall.mouseMove 500 500, PWCall.mouseUp, shotCall] := by decide
          rw [hsplit] at hmem
          have hall := execSeq_completed_of_reach env
            [gotoCall, waitCall, sleepCall, rectClick] _ c hmem hcprop.2.2
          have hrectTrue : env rectClick = true :=
            mem_true_execSeq env _ rectClick (hall rectClick (by decide))
          rw [hrect] at hrectTrue
          exact Bool.noConfusion hrectTrue
        · simp only [Bool.not_eq_true] at hp
          have hiss' : c ∈ issuedCalls (run env) := hiss
          simp [run, hl, hc2, hp, issuedCalls] at hiss'
          rcases hiss' with rfl | rfl | rfl <;> exact hcprop.1 (by decide)
      · simp only [Bool.not_eq_true] at hc2
        have hiss' : c ∈ issuedCalls (run env) := hiss
        simp [run, hl, hc2, issuedCalls] at hiss'
        rcases hiss' with rfl | rfl <;> exact hcprop.1 (by decide)
    · simp only [Bool.not_eq_true] at hl
      have hiss' : c ∈ issuedCalls (run env) := hiss
      simp [run, hl, issuedCalls] at hiss'
      rw [hiss'] at hcprop
      exact hcprop.1 (by decide)
  · intro h1 h2 h3 hgoto hwait hsleep hclose
    have hbody : execSeq env tryCalls =
        [(gotoCall, true), (waitCall, true), (sleepCall, true), (rectClick, false)] := by
      simp [tryCalls, execSeq, hgoto, hwait, hsleep, hrect]
    simp [run, h1, h2, h3, hbody, hclose, firstFailure]

/-- C4 witness: with only the Rectangle click failing, no pointer-down is
issued and the run fails at the Rectangle click. -/
theorem rectangle_missing_stops_run_witness :
    ¬ issued (run envNoRect) PWCall.mouseDown ∧ (run envNoRect).err = some rectClick :=
  ⟨(rectangle_missing_stops_run envNoRect (by decide)).1 PWCall.mouseDown (by decide),
   (rectangle_missing_stops_run envNoRect (by decide)).2 (by decide) (by decide)
     (by decide) (by decide) (by decide) (by decide) (by decide)⟩

/-- C7: the pause duration is the hard-coded 120 seconds; whenever the
network-idle wait completes, the pause call is issued (unconditionally, with
no data-dependent skip); and before any UI action (click or pointer event) is
issued, the pause has completed. -/
theorem pause_after_wait_before_ui (env : Env) :
    pauseSeconds = 120 ∧
    (completed (run env) waitCall → issued (run env) sleepCall) ∧
    (∀ c ∈ uiCalls, issued (run env) c → completed (run env) sleepCall) := by
  refine ⟨rfl, ?_, ?_⟩
  · intro hw
    by_cases hl : env PWCall.launch = true
    · by_cases hc2 : env PWCall.newContext = true
      · by_cases hp : env PWCall.newPage = true
        · have hb : (waitCall, true) ∈ execSeq env tryCalls :=
            (completed_run_body env hl hc2 hp waitCall (by decide) (by decide)).1 hw
          have hwmem : waitCall ∈ (execSeq env tryCalls).map Prod.fst :=
            List.mem_map_of_mem Prod.fst hb
          have hsplit : tryCalls = [gotoCall] ++
              (waitCall :: sleepCall :: rectClick :: strokeClick :: roughClick ::
               PWCall.mouseMove 300 300 :: PWCall.mouseDown :: PWCall.mouseMove 500 500 ::
               PWCall.mouseUp :: [shotCall]) := by decide
          rw [hsplit] at hwmem
          have hgotoTrue : env gotoCall = true :=
            mem_true_execSeq env _ gotoCall
              (execSeq_completed_of_reach env [gotoCall] _ waitCall hwmem (by decide)
                gotoCall (by decide))
          have hwaitTrue : env waitCall = true := mem_true_execSeq env tryCalls waitCall hb
          have hgw : ∀ c ∈ [gotoCall, waitCall], env c = true := by
            intro c hc
            rcases List.mem_cons.1 hc with rfl | hc
            · exact hgotoTrue
            · rcases List.mem_cons.1 hc with rfl | hc
              · exact hwaitTrue
              · cases hc
          have hsplit2 : tryCalls = [gotoCall, waitCall] ++
              (sleepCall :: rectClick :: strokeClick :: roughClick ::
               PWCall.mouseMove 300 300 :: PWCall.mouseDown :: PWCall.mouseMove 500 500 ::
               PWCall.mouseUp :: [shotCall]) := by decide
          have hsm : sleepCall ∈ (execSeq env tryCalls).map Prod.fst := by
            rw [hsplit2, execSeq_append_true env _ _ hgw, List.map_append]
            exact List.mem_append_right _ (head_mem_execSeq env sleepCall _)
          exact (issued_run_body env hl hc2 hp sleepCall (by decide) (by decide)).2 hsm
        · simp only [Bool.not_eq_true] at hp
          have hw' : (waitCall, true) ∈ (run env).trace := hw
          simp [run, hl, hc2, hp, waitCall] at hw'
      · simp only [Bool.not_eq_true] at hc2
        have hw' : (waitCall, true) ∈ (run env).trace := hw
        simp [run, hl, hc2, waitCall] at hw'
    · simp only [Bool.not_eq_true] at hl
      have hw' : (waitCall, true) ∈ (run env).trace := hw
      simp [run, hl, waitCall] at hw'
  · intro c hc hiss
    have hcprop : c ∉ setupCalls ∧ c ≠ PWCall.close ∧
        c ∉ [gotoCall, waitCall, sleepCall] := by
      simp only [uiCalls, pointerCalls, List.cons_append, List.nil_append,
        List.mem_cons, List.not_mem_nil, or_false] at hc
      rcases hc with rfl | rfl | rfl | rfl | rfl | rfl | rfl <;>
        exact ⟨by decide, by decide, by decide⟩
    by_cases hl : env PWCall.launch = true
    · by_cases hc2 : env PWCall.newContext = true
      · by_cases hp : env PWCall.newPage = true
        · have hmem : c ∈ (execSeq env tryCalls).map Prod.fst :=
            (issued_run_body env hl hc2 hp c hcprop.1 hcprop.2.1).1 hiss
          have hsplit : tryCalls = [gotoCall, waitCall, sleepCall] ++
              (rectClick :: strokeClick :: roughClick :: PWCall.mouseMove 300 300 ::
               PWCall.mouseDown :: PWCall.mouseMove 500 500 :: PWCall.mouseUp ::
               [shotCall]) := by decide
          rw [hsplit] at hmem
          have hall := execSeq_completed_of_reach env [gotoCall, waitCall, sleepCall]
            _ c hmem hcprop.2.2
          have hsleepDone : (sleepCall, true) ∈ execSeq env tryCalls := by
            rw [hsplit]
            exact hall sleepCall (by decide)
          exact (completed_run_body env hl hc2 hp sleepCall (by decide) (by decide)).2 hsleepDone
        · simp only [Bool.not_eq_true] at hp
          have hiss' : c ∈ issuedCalls (run env) := hiss
          simp [run, hl, hc2, hp, issuedCalls] at hiss'
          rcases hiss' with rfl | rfl | rfl <;> exact absurd (by decide) hcprop.1
      · simp only [Bool.not_eq_true] at hc2
        have hiss' : c ∈ issuedCalls (run env) := hiss
        simp [run, hl, hc2, issuedCalls] at hiss'
        rcases hiss' with rfl | rfl <;> exact absurd (by decide) hcprop.1
    · simp only [Bool.not_eq_true] at hl
      have hiss' : c ∈ issuedCalls (run env) := hiss
      simp [run, hl, issuedCalls] at hiss'
      rw [hiss'] at hcprop
      exact absurd (by decide) hcprop.1

/-- C7 witness: in the all-success environment the pause is issued and has
completed before the Rectangle click. -/
theorem pause_after_wait_before_ui_witness :
    pauseSeconds = 120 ∧ issued (run envAll) sleepCall ∧ completed (run envAll) sleepCall :=
  ⟨(pause_after_wait_before_ui envAll).1,
   (pause_after_wait_before_ui envAll).2.1 (by decide),
   (pause_after_wait_before_ui envAll).2.2 rectClick (by decide) (by decide)⟩

/-- C9: if any step of the `try:` body before the screenshot call raises,
the screenshot call never completes, and the file at the screenshot path is
left exactly as it was before the run, whichever step failed. -/
theorem failing_step_blocks_screenshot (env : Env) (c : PWCall)
    (hc : c ∈ tryCallsBeforeShot) (hfail : env c = false) :
    ¬ completed (run env) shotCall ∧
      ∀ capture pre, fileAfterRun env capture pre = pre := by
  have hnot : ¬ completed (run env) shotCall := by
    intro hs
    by_cases hl : env PWCall.launch = true
    · by_cases hc2 : env PWCall.newContext = true
      · by_cases hp : env PWCall.newPage = true
        · have hb : (shotCall, true) ∈ execSeq env tryCalls :=
            (completed_run_body env hl hc2 hp shotCall (by decide) (by decide)).1 hs
          have hmem : shotCall ∈ (execSeq env tryCalls).map Prod.fst :=
            List.mem_map_of_mem Prod.fst hb
          have hsplit : tryCalls = tryCallsBeforeShot ++ [shotCall] := by decide
          rw [hsplit] at hmem
          have hall := execSeq_completed_of_reach env tryCallsBeforeShot [shotCall]
            shotCall hmem (by decide)
          have hcTrue : env c = true := mem_true_execSeq env _ c (hall c hc)
          rw [hfail] at hcTrue
          exact Bool.noConfusion hcTrue
        · simp only [Bool.not_eq_true] at hp
          have hs' : (shotCall, true) ∈ (run env).trace := hs
          simp [run, hl, hc2, hp, shotCall] at hs'
      · simp only [Bool.not_eq_true] at hc2
        have hs' : (shotCall, true) ∈ (run env).trace := hs
        simp [run, hl, hc2, shotCall] at hs'
    · simp only [Bool.not_eq_true] at hl
      have hs' : (shotCall, true) ∈ (run env).trace := hs
      simp [run, hl, shotCall] at hs'
  refine ⟨hnot, ?_⟩
  intro capture pre
  simp [fileAfterRun, hnot]

/-- C9 witness: with `page.mouse.down()` failing, the screenshot never
completes and a missing file stays missing. -/
theorem failing_step_blocks_screenshot_witness :
    ¬ completed (run envNoDown) shotCall ∧
      fileAfterRun envNoDown "img" none = none :=
  ⟨(failing_step_blocks_screenshot envNoDown PWCall.mouseDown (by decide) (by decide)).1,
   (failing_step_blocks_screenshot envNoDown PWCall.mouseDown (by decide) (by decide)).2
     "img" none⟩

/-- C3 counterexample: in the all-success run the screenshot call carries
`full_page = false` (the source passes only `path`, and Playwright's
`full_page` option defaults to `false`), and no full-page screenshot call is
ever issued: the capture is of the viewport, not the full page. -/
theorem screenshot_not_full_page :
    completed (run envAll) (PWCall.screenshot screenshotPath false) ∧
      ¬ issued (run envAll) (PWCall.screenshot screenshotPath true) := by decide

/-- C3 (amended): on a successful run the final capture step takes a viewport
screenshot (`full_page` defaults to `false`) and writes it to the fixed path
`jules-scratch/verification/verification.png`, overwriting any pre-existing
file at that path. -/
theorem screenshot_written_on_success (env : Env) (capture : String)
    (pre : Option String) (hall : ∀ c ∈ fullScript, env c = true) :
    completed (run env) shotCall ∧
      shotCall = PWCall.screenshot "jules-scratch/verification/verification.png" false ∧
      fileAfterRun env capture pre = some capture := by
  have htry : ∀ c ∈ tryCalls, env c = true := by
    intro c hc
    exact hall c (by simp [fullScript]; tauto)
  have hbody : execSeq env tryCalls = tryCalls.map fun c => (c, true) :=
    execSeq_all_true env tryCalls htry
  have hdone : completed (run env) shotCall := by
    have hmem : (shotCall, true) ∈ execSeq env tryCalls := by
      rw [hbody]
      exact List.mem_map_of_mem _ (by decide)
    exact (completed_run_body env (hall PWCall.launch (by decide))
      (hall PWCall.newContext (by decide)) (hall PWCall.newPage (by decide))
      shotCall (by decide) (by decide)).2 hmem
  exact ⟨hdone, rfl, by simp [fileAfterRun, hdone]⟩

/-- C3 witness: in the all-success environment the screenshot completes and
the pre-existing file content is replaced by the new capture. -/
theorem screenshot_written_on_success_witness :
    completed (run envAll) shotCall ∧
      shotCall = PWCall.screenshot "jules-scratch/verification/verification.png" false ∧
      fileAfterRun envAll "img" (some "old") = some "img" :=
  screenshot_written_on_success envAll "img" (some "old") (fun _ _ => rfl)

/-- C6: the pointer events of the script are exactly the sequence
move(300,300), button down, move(500,500), button up, in this order — the
press happens at (300,300) and the release at (500,500) — both in the
planned body and in the trace of a fully successful run. -/
theorem drag_gesture_sequence :
    tryCalls.filter isPointer = pointerCalls ∧
      (issuedCalls (run envAll)).filter isPointer = pointerCalls ∧
      pointerCalls = [PWCall.mouseMove 300 300, PWCall.mouseDown,
        PWCall.mouseMove 500 500, PWCall.mouseUp] := by decide

/-- C8: every call any execution of `run` issues comes from the fixed script,
whose entries carry only hard-coded constants (URL, timeout, pause duration,
selectors, coordinates, output path); no other input shapes the calls. -/
theorem all_parameters_hard_coded (env : Env) (c : PWCall)
    (h : issued (run env) c) :
    c ∈ fullScript ∧ fullScript =
      [PWCall.launch, PWCall.newContext, PWCall.newPage,
       PWCall.goto "http://localhost:3000/" 60000,
       PWCall.waitForLoadState "networkidle", PWCall.sleep 120,
       PWCall.click "button[aria-label=\"Rectangle\"]",
       PWCall.click "button[aria-label=\"Stroke style\"]",
       PWCall.click "button[aria-label=\"Rough\"]",
       PWCall.mouseMove 300 300, PWCall.mouseDown,
       PWCall.mouseMove 500 500, PWCall.mouseUp,
       PWCall.screenshot "jules-scratch/verification/verification.png" false,
       PWCall.close] := by
  have h' : c ∈ issuedCalls (run env) := h
  exact ⟨(run_trace_sublist env).subset h', by decide⟩

/-- C8 witness: the launch call issued by the all-success run is in the fixed
script. -/
theorem all_parameters_hard_coded_witness :
    PWCall.launch ∈ fullScript ∧ fullScript =
      [PWCall.launch, PWCall.newContext, PWCall.newPage,
       PWCall.goto "http://localhost:3000/" 60000,
       PWCall.waitForLoadState "networkidle", PWCall.sleep 120,
       PWCall.click "button[aria-label=\"Rectangle\"]",
       PWCall.click "button[aria-label=\"Stroke style\"]",
       PWCall.click "button[aria-label=\"Rough\"]",
       PWCall.mouseMove 300 300, PWCall.mouseDown,
       PWCall.mouseMove 500 500, PWCall.mouseUp,
       PWCall.screenshot "jules-scratch/verification/verification.png" false,
       PWCall.close] :=
  all_parameters_hard_coded envAll PWCall.launch (by decide)

/-- C10 counterexample: two executions need not issue identical sequences of
operations — when navigation raises, the run issues fewer calls than a fully
successful run. -/
theorem traces_differ_across_outcomes :
    issuedCalls (run envAll) ≠ issuedCalls (run envNoGoto) := by decide

/-- C10 (amended): every execution dispatches operations from the same fixed
script with identical constant arguments — its issued calls are a sublist
(an order-preserving truncation) of the fixed sequence — and the execution is
determined by the outcomes of the script's calls alone: two environments
agreeing on the script's calls yield identical executions. -/
theorem dispatch_deterministic :
    (∀ env : Env, (issuedCalls (run env)).Sublist fullScript) ∧
    (∀ e1 e2 : Env, (∀ c ∈ fullScript, e1 c = e2 c) → run e1 = run e2) := by
  refine ⟨run_trace_sublist, ?_⟩
  intro e1 e2 h
  have htry : ∀ c ∈ tryCalls, e1 c = e2 c := by
    intro c hc
    exact h c (by simp [fullScript]; tauto)
  simp only [run, h PWCall.launch (by decide), h PWCall.newContext (by decide),
    h PWCall.newPage (by decide), h PWCall.close (by decide),
    execSeq_congr e1 e2 tryCalls htry]

/-- C10 witness: the all-success run's calls are a sublist of the script, and
an environment agreeing with it on the script's calls produces the identical
execution. -/
theorem dispatch_deterministic_witness :
    (issuedCalls (run envAll)).Sublist fullScript ∧ run envAll = run envScriptOnly :=
  ⟨dispatch_deterministic.1 envAll,
   dispatch_deterministic.2 envAll envScriptOnly (by decide)⟩

end VerifySloppiness
